import Mathlib

/-!
Verification of the iceoryx2 identity and discovery layer:
the validated fixed-capacity semantic-string engine
(iceoryx2-bb/container/src/semantic_string.rs), the node-list C-ABI
surface (iceoryx2-ffi/ffi/src/node.rs), and the service-builder
specialization (iceoryx2-ffi/ffi/src/api/service_builder.rs).

Bytes are modelled as `List Nat`; fallible operations return `Except`
paired with the post-state of the mutated value, so that the "value
unchanged on failure" properties are genuine theorems rather than
artifacts of a purely functional embedding.
-/

namespace Iceoryx2

/-- A byte sequence (the contents of a `FixedSizeByteString`). -/
abbrev Bytes := List Nat

/-! ### FixedSizeByteString primitives

`iceoryx2-bb/container/src/byte_string.rs` is part of the repository but
not among the provided sources; only its callers
(`semantic_string.rs`) are. The primitives below are therefore modelled
from the spec (section 4.1 and 9 of spec.md). -/

/-- Modelled from the spec: `FixedSizeByteString::insert_bytes` — the
bounded insertion. Fails (returning `none`, state unchanged) when the
capacity would be exceeded; otherwise splices `b` into `s` at `idx`. -/
def fbsInsertBytes (cap : Nat) (s : Bytes) (idx : Nat) (b : Bytes) : Option Bytes :=
  if cap < s.length + b.length then none
  else some (s.take idx ++ b ++ s.drop idx)

/-- Modelled from the spec: `FixedSizeByteString::remove_range` —
removes `len` bytes starting at `idx`. -/
def fbsRemoveRange (s : Bytes) (idx len : Nat) : Bytes :=
  s.take idx ++ s.drop (idx + len)

/-- Modelled from the spec: `FixedSizeByteString::retain` — removes all
bytes satisfying the provided predicate. -/
def fbsRetain (f : Nat → Bool) (s : Bytes) : Bytes :=
  s.filter (fun b => ! f b)

/-- Modelled from the spec: `FixedSizeByteString::strip_prefix` — when
`b` is a prefix of `s`, removes it (`some` of the remainder); otherwise
reports no match (`none`). -/
def fbsStripPrefix (s b : Bytes) : Option Bytes :=
  if b.isPrefixOf s then some (s.drop b.length) else none

/-- Modelled from the spec: `FixedSizeByteString::strip_suffix` — when
`b` is a suffix of `s`, removes it (`some` of the remainder); otherwise
reports no match (`none`). -/
def fbsStripSuffix (s b : Bytes) : Option Bytes :=
  if b.isSuffixOf s then some (s.take (s.length - b.length)) else none

/-- Modelled from the spec: `FixedSizeByteString::truncate` — shortens
the string to `newLen` (no-op when already shorter). -/
def fbsTruncate (s : Bytes) (newLen : Nat) : Bytes :=
  s.take newLen

/-! ### UTF-8 validity

`semantic_string.rs` line 449 calls `core::str::from_utf8`; the
validator below implements the standard UTF-8 well-formedness rules
(RFC 3629 byte patterns, surrogates and overlongs excluded). -/

/-- A UTF-8 continuation byte: `0x80 ..= 0xBF`. -/
def isCont (b : Nat) : Bool := 0x80 ≤ b && b ≤ 0xBF

/-- Standard UTF-8 validity of a byte sequence, mirroring
`core::str::from_utf8(...).is_ok()`. -/
def isValidUtf8 : Bytes → Bool
  | [] => true
  | b :: rest =>
    if b ≤ 0x7F then isValidUtf8 rest
    else if 0xC2 ≤ b && b ≤ 0xDF then
      match rest with
      | c1 :: r => isCont c1 && isValidUtf8 r
      | [] => false
    else if b == 0xE0 then
      match rest with
      | c1 :: c2 :: r => (0xA0 ≤ c1 && c1 ≤ 0xBF) && isCont c2 && isValidUtf8 r
      | _ => false
    else if (0xE1 ≤ b && b ≤ 0xEC) || b == 0xEE || b == 0xEF then
      match rest with
      | c1 :: c2 :: r => isCont c1 && isCont c2 && isValidUtf8 r
      | _ => false
    else if b == 0xED then
      match rest with
      | c1 :: c2 :: r => (0x80 ≤ c1 && c1 ≤ 0x9F) && isCont c2 && isValidUtf8 r
      | _ => false
    else if b == 0xF0 then
      match rest with
      | c1 :: c2 :: c3 :: r =>
        (0x90 ≤ c1 && c1 ≤ 0xBF) && isCont c2 && isCont c3 && isValidUtf8 r
      | _ => false
    else if 0xF1 ≤ b && b ≤ 0xF3 then
      match rest with
      | c1 :: c2 :: c3 :: r => isCont c1 && isCont c2 && isCont c3 && isValidUtf8 r
      | _ => false
    else if b == 0xF4 then
      match rest with
      | c1 :: c2 :: c3 :: r =>
        (0x80 ≤ c1 && c1 ≤ 0x8F) && isCont c2 && isCont c3 && isValidUtf8 r
      | _ => false
    else false

/-! ### The semantic-string engine -/

/-- A family instantiation of the `semantic_string!` macro: a capacity,
the two validation predicates and the normalization function
(`semantic_string.rs` lines 311-458). -/
structure Family where
  capacity : Nat
  invalid_content : Bytes → Bool
  invalid_characters : Bytes → Bool
  normalize : Bytes → Bytes

/-- `SemanticStringError` (`semantic_string.rs` lines 21-28). -/
inductive SemanticStringError where
  | InvalidCharacter
  | InvalidName
  | ExceedsMaximumLength
deriving DecidableEq, Repr

/-- The macro-generated `does_contain_invalid_characters`
(`semantic_string.rs` lines 448-454): invalid UTF-8 is always an
invalid character, then the family predicate is consulted. -/
def hasInvalidChars (F : Family) (s : Bytes) : Bool :=
  if ! isValidUtf8 s then true else F.invalid_characters s

/-- `SemanticString::insert_bytes` (`semantic_string.rs` lines 143-164):
character check, bounded insertion, then content re-validation with an
explicit `remove_range` rollback on content violation. The returned
`Bytes` is the post-state of the live value. -/
def insert_bytes (F : Family) (s : Bytes) (idx : Nat) (b : Bytes) :
    Except SemanticStringError Unit × Bytes :=
  if hasInvalidChars F b then (.error .InvalidCharacter, s)
  else
    match fbsInsertBytes F.capacity s idx b with
    | none => (.error .ExceedsMaximumLength, s)
    | some s1 =>
      if F.invalid_content s1 then
        (.error .InvalidName, fbsRemoveRange s1 idx b.length)
      else (.ok (), s1)

/-- `SemanticString::new` (`semantic_string.rs` lines 74-83): starts
from the empty string and pushes `value` via
`push_bytes = insert_bytes(len, ...)` with `len = 0`. -/
def newSem (F : Family) (value : Bytes) : Except SemanticStringError Bytes :=
  match insert_bytes F [] 0 value with
  | (.ok _, s) => .ok s
  | (.error e, _) => .error e

/-- `SemanticString::remove` (`semantic_string.rs` lines 207-218):
removes the byte at `idx` from the live value, then re-validates
content; on violation the byte is re-inserted (rollback) and
`InvalidName` reported. The underlying buffer `insert` is unwrapped in
the source; out-of-capacity rollback (impossible for a value within
capacity) is modelled by keeping the shrunken state. -/
def removeSem (F : Family) (s : Bytes) (idx : Nat) :
    Except SemanticStringError Nat × Bytes :=
  let value := s.getD idx 0
  let s1 := fbsRemoveRange s idx 1
  if F.invalid_content s1 then
    match fbsInsertBytes F.capacity s1 idx [value] with
    | some s2 => (.error .InvalidName, s2)
    | none => (.error .InvalidName, s1)
  else (.ok value, s1)

/-- `SemanticString::remove_range` (`semantic_string.rs` lines 222-233):
computes the result on a scratch copy, validates the copy, commits only
when valid. -/
def remove_range (F : Family) (s : Bytes) (idx len : Nat) :
    Except SemanticStringError Unit × Bytes :=
  let temp := fbsRemoveRange s idx len
  if F.invalid_content temp then (.error .InvalidName, s)
  else (.ok (), temp)

/-- `SemanticString::retain` (`semantic_string.rs` lines 237-249):
filters on a scratch copy, validates the copy, commits the same filter
on the live value when valid. -/
def retainSem (F : Family) (s : Bytes) (f : Nat → Bool) :
    Except SemanticStringError Unit × Bytes :=
  let temp := fbsRetain f s
  if F.invalid_content temp then (.error .InvalidName, s)
  else (.ok (), fbsRetain f s)

/-- `SemanticString::strip_prefix` (`semantic_string.rs` lines
254-271): no match is `Ok(false)`; a match is validated on a scratch
copy and committed (`Ok(true)`) or rejected (`InvalidName`). -/
def strip_prefixSem (F : Family) (s b : Bytes) :
    Except SemanticStringError Bool × Bytes :=
  match fbsStripPrefix s b with
  | none => (.ok false, s)
  | some temp =>
    if F.invalid_content temp then (.error .InvalidName, s)
    else (.ok true, temp)

/-- `SemanticString::strip_suffix` (`semantic_string.rs` lines
276-293): symmetric to the prefix variant. -/
def strip_suffixSem (F : Family) (s b : Bytes) :
    Except SemanticStringError Bool × Bytes :=
  match fbsStripSuffix s b with
  | none => (.ok false, s)
  | some temp =>
    if F.invalid_content temp then (.error .InvalidName, s)
    else (.ok true, temp)

/-- `SemanticString::truncate` (`semantic_string.rs` lines 296-308):
truncates a scratch copy, validates it, commits only when valid. -/
def truncateSem (F : Family) (s : Bytes) (newLen : Nat) :
    Except SemanticStringError Unit × Bytes :=
  let temp := fbsTruncate s newLen
  if F.invalid_content temp then (.error .InvalidName, s)
  else (.ok (), temp)

/-- The macro-generated `PartialEq` between two values of one family
(`semantic_string.rs` lines 371-375): byte equality of the normalized
forms. -/
def eqSem (F : Family) (x y : Bytes) : Bool :=
  F.normalize x == F.normalize y

/-- The byte sequence the macro-generated `Hash` implementation feeds
to the hasher (`semantic_string.rs` lines 351-355):
`self.normalize().as_bytes()`. -/
def hashInput (F : Family) (x : Bytes) : Bytes :=
  F.normalize x

/-- The macro-generated `PartialEq<&[u8]>` (`semantic_string.rs` lines
377-397): the slice is run through `new`; a validation failure compares
as `false`, otherwise normalized equality with the constructed value.
The fixed-size-array variants (lines 399-419) delegate to the same
logic on the array's byte contents. -/
def eqSlice (F : Family) (x : Bytes) (other : Bytes) : Bool :=
  match newSem F other with
  | .error _ => false
  | .ok y => eqSem F x y

/-! ### Node-list C-ABI surface (`iceoryx2-ffi/ffi/src/node.rs`) -/

/-- `iox2_node_state_e` (`node.rs` lines 120-127). -/
inductive NodeStateE where
  | ALIVE
  | DEAD
  | INACCESSIBLE
  | UNDEFINED
deriving DecidableEq, Repr

/-- Modelled from the spec: `NodeState` (spec.md section 3) — a tagged
union over `Alive{id, optional details}`, `Dead{id, optional details}`,
`Inaccessible{id}`, `Undefined{id}`; details, when present, carry a
node name and a configuration snapshot (both abstracted as `Nat`
handles here). The defining type lives in the `iceoryx2` core crate,
outside the provided sources. -/
inductive NodeStateM where
  | alive (id : Nat) (details : Option (Nat × Nat))
  | dead (id : Nat) (details : Option (Nat × Nat))
  | inaccessible (id : Nat)
  | undefined (id : Nat)
deriving DecidableEq, Repr

/-- The argument tuple `iox2_node_list_impl` passes to the C callback
(`node.rs` lines 149-155): state tag, node id, node-name pointer and
config pointer. `none` models a NULL pointer. -/
structure CallbackArgs where
  state : NodeStateE
  id : Nat
  name : Option Nat
  config : Option Nat
deriving DecidableEq, Repr

/-- `CallbackProgression` as seen at the C boundary
(`iox2_callback_progression_e`). -/
inductive Progression where
  | CONTINUE
  | STOP
deriving DecidableEq, Repr

/-- The argument computation of `iox2_node_list_impl` (`node.rs` lines
206-259): Alive/Dead unwrap the optional details into (name, config)
pointers, defaulting to (NULL, NULL); Inaccessible/Undefined always
pass (NULL, NULL). -/
def nodeListImplArgs : NodeStateM → CallbackArgs
  | .alive id details =>
    { state := .ALIVE, id := id,
      name := details.map Prod.fst, config := details.map Prod.snd }
  | .dead id details =>
    { state := .DEAD, id := id,
      name := details.map Prod.fst, config := details.map Prod.snd }
  | .inaccessible id =>
    { state := .INACCESSIBLE, id := id, name := none, config := none }
  | .undefined id =>
    { state := .UNDEFINED, id := id, name := none, config := none }

/-- `iox2_node_list_impl` (`node.rs` lines 206-259): invokes the
callback once with the computed arguments and returns its progression
signal. `Ctx` abstracts the `void*` callback context. -/
def iox2_node_list_impl {Ctx : Type} (nodeState : NodeStateM)
    (callback : CallbackArgs → Ctx → Progression) (callbackCtx : Ctx) : Progression :=
  callback (nodeListImplArgs nodeState) callbackCtx

/-- Modelled from the spec: `NodeListFailure` (spec.md section 7) — the
discovery errors `InsufficientPermissions`, `Interrupt`,
`InternalError`. The defining enum lives in the `iceoryx2` core crate,
outside the provided sources. -/
inductive NodeListFailure where
  | InsufficientPermissions
  | Interrupt
  | InternalError
deriving DecidableEq, Repr

/-- Modelled from the spec: `IOX2_OK`, the success manifest constant of
the C-ABI layer (defined outside the provided sources; the enum in
`node.rs` line 34 anchors its first error code at `IOX2_OK + 1`). -/
def IOX2_OK : Int := 0

/-- `iox2_node_list_failure_e` (`node.rs` lines 31-37): consecutive
codes starting at `IOX2_OK + 1`. -/
def nodeListFailureCode : NodeListFailure → Int
  | .InsufficientPermissions => IOX2_OK + 1
  | .Interrupt => IOX2_OK + 2
  | .InternalError => IOX2_OK + 3

/-- The return-value computation of `iox2_node_list` (`node.rs` lines
296-299): `IOX2_OK` on success, `IntoCInt for NodeListFailure`
(`node.rs` lines 39-49) on failure. -/
def iox2_node_list_ret (listResult : Except NodeListFailure Unit) : Int :=
  match listResult with
  | .ok _ => IOX2_OK
  | .error e => nodeListFailureCode e

/-! ### Service-builder specialization
(`iceoryx2-ffi/ffi/src/api/service_builder.rs`) -/

/-- `iox2_service_type_e`: the backend discriminant (inter-process vs.
intra-process). -/
inductive ServiceTypeE where
  | IPC
  | LOCAL
deriving DecidableEq, Repr

/-- The messaging-pattern stage held in `ServiceBuilderUnionNested`
(`service_builder.rs` lines 35-39): generic base, event-specialized or
publish-subscribe-specialized. -/
inductive PatternState where
  | base
  | event
  | pubSub
deriving DecidableEq, Repr

/-- `ServiceBuilderUnion` (`service_builder.rs` lines 41-98): which
backend variant is active, which nested pattern stage it holds, and an
abstract payload carried from the generic configuration (name, domain;
opaque here). -/
structure SBUnion where
  backend : ServiceTypeE
  pattern : PatternState
  payload : Nat
deriving DecidableEq, Repr

/-- `iox2_service_builder_t` (`service_builder.rs` lines 106-112): the
backend discriminant stored alongside the union storage. -/
structure ServiceBuilderT where
  service_type : ServiceTypeE
  value : SBUnion
deriving DecidableEq, Repr

/-- `iox2_service_builder_event` (`service_builder.rs` lines 239-267):
matches on the stored discriminant, takes the matching union field's
`base` builder and re-initializes the storage with the event-specialized
builder of the same backend. Reading a union field that is not the
active one is undefined behavior in the source; that path is modelled
as `none`. -/
def iox2_service_builder_event (b : ServiceBuilderT) : Option ServiceBuilderT :=
  match b.service_type with
  | .IPC =>
    if b.value.backend = .IPC ∧ b.value.pattern = .base then
      some { b with value := { backend := .IPC, pattern := .event, payload := b.value.payload } }
    else none
  | .LOCAL =>
    if b.value.backend = .LOCAL ∧ b.value.pattern = .base then
      some { b with value := { backend := .LOCAL, pattern := .event, payload := b.value.payload } }
    else none

/-- `iox2_service_builder_pub_sub` (`service_builder.rs` lines
281-314): same shape as the event specialization, producing the
publish-subscribe stage of the same backend. -/
def iox2_service_builder_pub_sub (b : ServiceBuilderT) : Option ServiceBuilderT :=
  match b.service_type with
  | .IPC =>
    if b.value.backend = .IPC ∧ b.value.pattern = .base then
      some { b with value := { backend := .IPC, pattern := .pubSub, payload := b.value.payload } }
    else none
  | .LOCAL =>
    if b.value.backend = .LOCAL ∧ b.value.pattern = .base then
      some { b with value := { backend := .LOCAL, pattern := .pubSub, payload := b.value.payload } }
    else none

/-- The spec's description of `remove` (spec.md section 4.1): compute
the result on a scratch copy, validate content on the copy, and only
commit to the live value if valid. Stated from the spec's words, to be
compared with the source's mutate-and-rollback `removeSem`. -/
def removeScratch (F : Family) (s : Bytes) (idx : Nat) :
    Except SemanticStringError Nat × Bytes :=
  let temp := fbsRemoveRange s idx 1
  if F.invalid_content temp then (.error .InvalidName, s)
  else (.ok (s.getD idx 0), temp)

/-! ### Helper lemmas -/

/-- Removing `b.length` bytes at `idx` exactly undoes the splice of `b`
at `idx`, provided `idx` lies within the original string. -/
theorem rollback_insert (s b : Bytes) (idx : Nat) (h : idx ≤ s.length) :
    fbsRemoveRange (s.take idx ++ b ++ s.drop idx) idx b.length = s := by
  unfold fbsRemoveRange
  have hlen : (s.take idx).length = idx := by simp; omega
  rw [List.append_assoc, List.take_append_eq_append_take,
      List.drop_append_eq_append_drop, List.drop_append_eq_append_drop, hlen]
  have h1 : (s.take idx).take idx = s.take idx := by
    rw [List.take_take]
    simp
  have h2 : (s.take idx).drop (idx + b.length) = [] := by
    apply List.drop_eq_nil_of_le
    omega
  simp [h1, h2, Nat.sub_self, Nat.add_sub_cancel_left]

/-! ### Claim theorems -/

/-- C1: `SemanticString::new(b)` succeeds with contents exactly `b` iff
`b` has no invalid characters, fits the capacity and passes the content
predicate; otherwise it fails with `InvalidCharacter` (taking priority
over all other checks), else `ExceedsMaximumLength` when `b` is too
long, else `InvalidName` when the content predicate rejects; on failure
no identifier is produced. -/
theorem C1_new_characterization (F : Family) (b : Bytes) :
    (newSem F b = .ok b ↔
      hasInvalidChars F b = false ∧ b.length ≤ F.capacity ∧
        F.invalid_content b = false)
    ∧ newSem F b =
      (if hasInvalidChars F b then .error .InvalidCharacter
       else if F.capacity < b.length then .error .ExceedsMaximumLength
       else if F.invalid_content b then .error .InvalidName
       else .ok b) := by
  have hred : newSem F b =
      (if hasInvalidChars F b then .error .InvalidCharacter
       else if F.capacity < b.length then .error .ExceedsMaximumLength
       else if F.invalid_content b then .error .InvalidName
       else .ok b) := by
    unfold newSem insert_bytes fbsInsertBytes
    by_cases h1 : hasInvalidChars F b
    · simp [h1]
    · by_cases h2 : F.capacity < b.length
      · simp [h1, h2]
      · by_cases h3 : F.invalid_content b
        · simp [h1, h2, h3]
        · simp [h1, h2, h3]
  refine ⟨?_, hred⟩
  rw [hred]
  by_cases h1 : hasInvalidChars F b
  · simp [h1]
  · by_cases h2 : F.capacity < b.length
    · simp [h1, h2]
    · by_cases h3 : F.invalid_content b
      · simp [h1, h2, h3]
      · simp [h1, h2, h3]
        omega

/-- C2: whenever `insert_bytes` fails — with `InvalidCharacter`,
`ExceedsMaximumLength`, or `InvalidName` after the rollback of a
content-violating insertion — the identifier is byte-for-byte
unchanged. -/
theorem C2_insert_bytes_atomic (F : Family) (s : Bytes) (idx : Nat) (b : Bytes)
    (hidx : idx ≤ s.length) (e : SemanticStringError)
    (hfail : (insert_bytes F s idx b).fst = .error e) :
    (insert_bytes F s idx b).snd = s := by
  unfold insert_bytes fbsInsertBytes at hfail ⊢
  by_cases h1 : hasInvalidChars F b
  · simp [h1]
  · by_cases h2 : F.capacity < s.length + b.length
    · simp [h1, h2]
    · by_cases h3 : F.invalid_content (s.take idx ++ (b ++ s.drop idx))
      · simp [h1, h2, h3]
        rw [← List.append_assoc]
        exact rollback_insert s b idx hidx
      · simp [h1, h2, h3] at hfail

/-- C2 witness: a concrete content-violating insertion (cap 8, content
invalid at length 3) is rolled back, leaving the value unchanged. -/
theorem C2_insert_bytes_atomic_witness :
    (insert_bytes
      { capacity := 8, invalid_content := fun l => l.length == 3,
        invalid_characters := fun _ => false, normalize := id }
      [1, 2] 1 [7]).snd = [1, 2] :=
  C2_insert_bytes_atomic
    { capacity := 8, invalid_content := fun l => l.length == 3,
      invalid_characters := fun _ => false, normalize := id }
    [1, 2] 1 [7] (by decide) .InvalidName (by rfl)

/-- Re-inserting the removed byte at `idx` exactly undoes the removal,
provided `idx` lies within the string. -/
theorem remove_rollback (s : Bytes) (idx : Nat) (h : idx < s.length) :
    (fbsRemoveRange s idx 1).take idx ++ [s.getD idx 0] ++
      (fbsRemoveRange s idx 1).drop idx = s := by
  unfold fbsRemoveRange
  have hlen : (s.take idx).length = idx := by simp; omega
  rw [List.take_append_eq_append_take, List.drop_append_eq_append_drop, hlen]
  have h1 : (s.take idx).take idx = s.take idx := by
    rw [List.take_take]; simp
  have h2 : (s.take idx).drop idx = [] :=
    List.drop_eq_nil_of_le (le_of_eq hlen)
  simp only [h1, h2, Nat.sub_self, List.take_zero, List.drop_zero,
    List.append_nil, List.nil_append]
  rw [List.getD_eq_getElem s 0 h]
  conv_rhs => rw [← List.take_append_drop idx s, List.drop_eq_getElem_cons h]
  simp

/-- C3: each of `remove(idx)`, `remove_range(idx, len)`,
`retain(predicate)` and `truncate(new_len)` either commits a result
satisfying the content predicate, or fails with `InvalidName` leaving
the identifier byte-for-byte unchanged; moreover `remove`'s
mutate-and-rollback implementation coincides with the scratch-copy
compute-validate-commit procedure the spec describes (the other three
are implemented exactly that way). -/
theorem C3_scratch_ops (F : Family) (s : Bytes) (idx len newLen : Nat)
    (f : Nat → Bool) (hcap : s.length ≤ F.capacity) (hidx : idx < s.length) :
    (removeSem F s idx = removeScratch F s idx)
    ∧ (∀ v, (removeSem F s idx).fst = .ok v →
        F.invalid_content (removeSem F s idx).snd = false)
    ∧ (∀ e, (removeSem F s idx).fst = .error e →
        e = .InvalidName ∧ (removeSem F s idx).snd = s)
    ∧ ((remove_range F s idx len).fst = .ok () →
        F.invalid_content (remove_range F s idx len).snd = false)
    ∧ (∀ e, (remove_range F s idx len).fst = .error e →
        e = .InvalidName ∧ (remove_range F s idx len).snd = s)
    ∧ ((retainSem F s f).fst = .ok () →
        F.invalid_content (retainSem F s f).snd = false)
    ∧ (∀ e, (retainSem F s f).fst = .error e →
        e = .InvalidName ∧ (retainSem F s f).snd = s)
    ∧ ((truncateSem F s newLen).fst = .ok () →
        F.invalid_content (truncateSem F s newLen).snd = false)
    ∧ (∀ e, (truncateSem F s newLen).fst = .error e →
        e = .InvalidName ∧ (truncateSem F s newLen).snd = s) := by
  have hrem : removeSem F s idx = removeScratch F s idx := by
    unfold removeSem removeScratch
    by_cases h3 : F.invalid_content (fbsRemoveRange s idx 1)
    · simp only [h3, if_true]
      unfold fbsInsertBytes
      have hlen1 : (fbsRemoveRange s idx 1).length = s.length - 1 := by
        unfold fbsRemoveRange
        simp
        omega
      have hcap' : ¬ F.capacity <
          (fbsRemoveRange s idx 1).length + ([s.getD idx 0] : Bytes).length := by
        simp [hlen1]
        omega
      simp only [hcap', if_false]
      rw [remove_rollback s idx hidx]
    · simp [h3]
  refine ⟨hrem, ?_, ?_, ?_, ?_, ?_, ?_, ?_, ?_⟩
  · intro v hok
    rw [hrem] at hok ⊢
    unfold removeScratch at hok ⊢
    by_cases h3 : F.invalid_content (fbsRemoveRange s idx 1)
    · simp [h3] at hok
    · simp [h3]
  · intro e herr
    rw [hrem] at herr ⊢
    unfold removeScratch at herr ⊢
    by_cases h3 : F.invalid_content (fbsRemoveRange s idx 1)
    · simp [h3] at herr ⊢
      exact herr.symm
    · simp [h3] at herr
  · intro hok
    unfold remove_range at hok ⊢
    by_cases h3 : F.invalid_content (fbsRemoveRange s idx len)
    · simp [h3] at hok
    · simp [h3]
  · intro e herr
    unfold remove_range at herr ⊢
    by_cases h3 : F.invalid_content (fbsRemoveRange s idx len)
    · simp [h3] at herr ⊢
      exact herr.symm
    · simp [h3] at herr
  · intro hok
    unfold retainSem at hok ⊢
    by_cases h3 : F.invalid_content (fbsRetain f s)
    · simp [h3] at hok
    · simp [h3]
  · intro e herr
    unfold retainSem at herr ⊢
    by_cases h3 : F.invalid_content (fbsRetain f s)
    · simp [h3] at herr ⊢
      exact herr.symm
    · simp [h3] at herr
  · intro hok
    unfold truncateSem at hok ⊢
    by_cases h3 : F.invalid_content (fbsTruncate s newLen)
    · simp [h3] at hok
    · simp [h3]
  · intro e herr
    unfold truncateSem at herr ⊢
    by_cases h3 : F.invalid_content (fbsTruncate s newLen)
    · simp [h3] at herr ⊢
      exact herr.symm
    · simp [h3] at herr

/-- C3 witness: with a family whose content predicate rejects emptiness,
removing from `[1, 2]` commits a valid result and coincides with the
scratch-copy procedure, and a rejected removal (from `[1]`, handled by
the same theorem at a second input) leaves the value unchanged. -/
theorem C3_scratch_ops_witness :
    ((removeSem
        { capacity := 8, invalid_content := fun l => l.length == 0,
          invalid_characters := fun _ => false, normalize := id }
        [1, 2] 0).fst = .ok 1
      ∧ (removeSem
        { capacity := 8, invalid_content := fun l => l.length == 0,
          invalid_characters := fun _ => false, normalize := id }
        [1, 2] 0).snd = [2])
    ∧ (removeSem
        { capacity := 8, invalid_content := fun l => l.length == 0,
          invalid_characters := fun _ => false, normalize := id }
        [1, 2] 0 =
       removeScratch
        { capacity := 8, invalid_content := fun l => l.length == 0,
          invalid_characters := fun _ => false, normalize := id }
        [1, 2] 0)
    ∧ (removeSem
        { capacity := 8, invalid_content := fun l => l.length == 0,
          invalid_characters := fun _ => false, normalize := id }
        [1] 0).snd = [1] :=
  ⟨⟨by rfl, by rfl⟩,
    (C3_scratch_ops
      { capacity := 8, invalid_content := fun l => l.length == 0,
        invalid_characters := fun _ => false, normalize := id }
      [1, 2] 0 0 0 (fun _ => false) (by decide) (by decide)).1,
    ((C3_scratch_ops
      { capacity := 8, invalid_content := fun l => l.length == 0,
        invalid_characters := fun _ => false, normalize := id }
      [1] 0 0 0 (fun _ => false) (by decide) (by decide)).2.2.1
      .InvalidName (by rfl)).2⟩

/-- C4: two identifiers of one family compare equal iff their
normalized forms are byte-equal; the byte sequence fed to the hasher is
exactly the normalized form, so identifiers that normalize identically
hash identically (for every hasher), and equality is
normalization-invariant. -/
theorem C4_eq_hash_normalize (F : Family) (x y : Bytes) :
    (eqSem F x y = true ↔ F.normalize x = F.normalize y)
    ∧ (hashInput F x = hashInput F y ↔ F.normalize x = F.normalize y)
    ∧ (∀ h : Bytes → Nat, F.normalize x = F.normalize y →
        h (hashInput F x) = h (hashInput F y)) := by
  refine ⟨?_, Iff.rfl, ?_⟩
  · simp [eqSem]
  · intro h hn
    simp [hashInput, hn]

/-- C4 witness: under case-folding normalization, the representations
"A" and "a" normalize identically, so any hasher receives the same
input for both. -/
theorem C4_eq_hash_normalize_witness :
    (fun l => List.length l)
        (hashInput
          { capacity := 8, invalid_content := fun _ => false,
            invalid_characters := fun _ => false,
            normalize := fun l => l.map (fun c => if 65 ≤ c && c ≤ 90 then c + 32 else c) }
          [65]) =
      (fun l => List.length l)
        (hashInput
          { capacity := 8, invalid_content := fun _ => false,
            invalid_characters := fun _ => false,
            normalize := fun l => l.map (fun c => if 65 ≤ c && c ≤ 90 then c + 32 else c) }
          [97]) :=
  (C4_eq_hash_normalize
    { capacity := 8, invalid_content := fun _ => false,
      invalid_characters := fun _ => false,
      normalize := fun l => l.map (fun c => if 65 ≤ c && c ≤ 90 then c + 32 else c) }
    [65] [97]).2.2 (fun l => List.length l) (by decide)

/-- C5: the node-list scan hands the C callback NULL name and config
pointers for `Inaccessible` and `Undefined` states; for `Alive` and
`Dead` the name and config pointers are non-NULL exactly when the
details could be read, and NULL otherwise. -/
theorem C5_callback_null_pointers {Ctx : Type} (id : Nat) (d : Option (Nat × Nat))
    (callback : CallbackArgs → Ctx → Progression) (ctx : Ctx) :
    (iox2_node_list_impl (.inaccessible id) callback ctx =
      callback { state := .INACCESSIBLE, id := id, name := none, config := none } ctx)
    ∧ (iox2_node_list_impl (.undefined id) callback ctx =
      callback { state := .UNDEFINED, id := id, name := none, config := none } ctx)
    ∧ ((nodeListImplArgs (.alive id d)).state = .ALIVE
       ∧ (nodeListImplArgs (.alive id d)).name.isSome = d.isSome
       ∧ (nodeListImplArgs (.alive id d)).config.isSome = d.isSome)
    ∧ ((nodeListImplArgs (.dead id d)).state = .DEAD
       ∧ (nodeListImplArgs (.dead id d)).name.isSome = d.isSome
       ∧ (nodeListImplArgs (.dead id d)).config.isSome = d.isSome) := by
  refine ⟨rfl, rfl, ⟨rfl, ?_, ?_⟩, ⟨rfl, ?_, ?_⟩⟩ <;> cases d <;> rfl

/-- C6: `iox2_node_list` returns `IOX2_OK` exactly when the underlying
list operation succeeds and otherwise the fixed code of the failure
variant; the variant-to-code mapping is injective, every code differs
from `IOX2_OK`, and the first code is `IOX2_OK + 1`. -/
theorem C6_error_codes (r : Except NodeListFailure Unit) :
    (iox2_node_list_ret r = IOX2_OK ↔ r = .ok ())
    ∧ (∀ e, iox2_node_list_ret (.error e) = nodeListFailureCode e)
    ∧ (∀ e1 e2 : NodeListFailure,
        nodeListFailureCode e1 = nodeListFailureCode e2 ↔ e1 = e2)
    ∧ (∀ e, nodeListFailureCode e ≠ IOX2_OK)
    ∧ nodeListFailureCode .InsufficientPermissions = IOX2_OK + 1 := by
  refine ⟨?_, fun e => rfl, ?_, ?_, rfl⟩
  · cases r with
    | ok u => simp [iox2_node_list_ret]
    | error e => cases e <;> simp [iox2_node_list_ret, nodeListFailureCode, IOX2_OK]
  · intro e1 e2
    cases e1 <;> cases e2 <;> simp [nodeListFailureCode, IOX2_OK]
  · intro e
    cases e <;> simp [nodeListFailureCode, IOX2_OK]

/-- C6 witness: the `Interrupt` code is distinct from `IOX2_OK`. -/
theorem C6_error_codes_witness :
    nodeListFailureCode .Interrupt ≠ IOX2_OK :=
  (C6_error_codes (.ok ())).2.2.2.1 .Interrupt

/-- C7: specializing a generic service builder into an event or
publish-subscribe builder leaves the stored backend discriminant
unchanged, and the specialized payload is constructed in the union
variant matching that discriminant (IPC stays IPC, LOCAL stays LOCAL),
carrying the generic configuration payload across. -/
theorem C7_specialization_preserves_backend (b : ServiceBuilderT)
    (hmatch : b.value.backend = b.service_type)
    (hbase : b.value.pattern = .base) :
    (∃ b2, iox2_service_builder_event b = some b2
        ∧ b2.service_type = b.service_type
        ∧ b2.value.backend = b.service_type
        ∧ b2.value.pattern = .event
        ∧ b2.value.payload = b.value.payload)
    ∧ (∃ b2, iox2_service_builder_pub_sub b = some b2
        ∧ b2.service_type = b.service_type
        ∧ b2.value.backend = b.service_type
        ∧ b2.value.pattern = .pubSub
        ∧ b2.value.payload = b.value.payload) := by
  obtain ⟨st, bk, pat, pl⟩ := b
  simp only at hmatch hbase
  subst hbase
  cases st <;> subst hmatch <;>
    simp [iox2_service_builder_event, iox2_service_builder_pub_sub]

/-- C7 witness: a LOCAL generic builder specializes to a LOCAL event
builder and a LOCAL publish-subscribe builder. -/
theorem C7_specialization_preserves_backend_witness :
    (∃ b2, iox2_service_builder_event ⟨.LOCAL, .LOCAL, .base, 42⟩ = some b2
        ∧ b2.service_type = ServiceTypeE.LOCAL
        ∧ b2.value.backend = ServiceTypeE.LOCAL
        ∧ b2.value.pattern = .event
        ∧ b2.value.payload = 42)
    ∧ (∃ b2, iox2_service_builder_pub_sub ⟨.LOCAL, .LOCAL, .base, 42⟩ = some b2
        ∧ b2.service_type = ServiceTypeE.LOCAL
        ∧ b2.value.backend = ServiceTypeE.LOCAL
        ∧ b2.value.pattern = .pubSub
        ∧ b2.value.payload = 42) :=
  C7_specialization_preserves_backend ⟨.LOCAL, .LOCAL, .base, 42⟩ (by rfl) (by rfl)

/-- C8: `strip_prefix` returns `Ok(false)` leaving the value unchanged
when the prefix is absent; when present, it fails with `InvalidName`
leaving the value unchanged if removal would violate the content
predicate, and otherwise removes the prefix and returns `Ok(true)`;
symmetrically for `strip_suffix`. -/
theorem C8_strip_prefix_suffix (F : Family) (s b : Bytes) :
    (b.isPrefixOf s = false → strip_prefixSem F s b = (.ok false, s))
    ∧ (b.isPrefixOf s = true → F.invalid_content (s.drop b.length) = true →
        strip_prefixSem F s b = (.error .InvalidName, s))
    ∧ (b.isPrefixOf s = true → F.invalid_content (s.drop b.length) = false →
        strip_prefixSem F s b = (.ok true, s.drop b.length))
    ∧ (b.isSuffixOf s = false → strip_suffixSem F s b = (.ok false, s))
    ∧ (b.isSuffixOf s = true →
        F.invalid_content (s.take (s.length - b.length)) = true →
        strip_suffixSem F s b = (.error .InvalidName, s))
    ∧ (b.isSuffixOf s = true →
        F.invalid_content (s.take (s.length - b.length)) = false →
        strip_suffixSem F s b = (.ok true, s.take (s.length - b.length))) := by
  refine ⟨?_, ?_, ?_, ?_, ?_, ?_⟩
  · intro h1
    simp [strip_prefixSem, fbsStripPrefix, h1]
  · intro h1 h2
    simp [strip_prefixSem, fbsStripPrefix, h1, h2]
  · intro h1 h2
    simp [strip_prefixSem, fbsStripPrefix, h1, h2]
  · intro h1
    simp [strip_suffixSem, fbsStripSuffix, h1]
  · intro h1 h2
    simp [strip_suffixSem, fbsStripSuffix, h1, h2]
  · intro h1 h2
    simp [strip_suffixSem, fbsStripSuffix, h1, h2]

/-- C8 witness: with a family rejecting the empty content, stripping an
absent prefix reports false and leaves `[1, 2]` unchanged; stripping
the whole string `[1]` is rejected with the value unchanged; stripping
the present prefix `[1]` from `[1, 2]` succeeds leaving `[2]`. -/
theorem C8_strip_prefix_suffix_witness :
    (strip_prefixSem
      { capacity := 8, invalid_content := fun l => l.length == 0,
        invalid_characters := fun _ => false, normalize := id }
      [1, 2] [5] = (.ok false, [1, 2]))
    ∧ (strip_prefixSem
      { capacity := 8, invalid_content := fun l => l.length == 0,
        invalid_characters := fun _ => false, normalize := id }
      [1] [1] = (.error .InvalidName, [1]))
    ∧ (strip_prefixSem
      { capacity := 8, invalid_content := fun l => l.length == 0,
        invalid_characters := fun _ => false, normalize := id }
      [1, 2] [1] = (.ok true, [2])) :=
  ⟨(C8_strip_prefix_suffix
      { capacity := 8, invalid_content := fun l => l.length == 0,
        invalid_characters := fun _ => false, normalize := id }
      [1, 2] [5]).1 (by decide),
   (C8_strip_prefix_suffix
      { capacity := 8, invalid_content := fun l => l.length == 0,
        invalid_characters := fun _ => false, normalize := id }
      [1] [1]).2.1 (by decide) (by decide),
   (C8_strip_prefix_suffix
      { capacity := 8, invalid_content := fun l => l.length == 0,
        invalid_characters := fun _ => false, normalize := id }
      [1, 2] [1]).2.2.1 (by decide) (by decide)⟩

/-- C9 counterexample: with a family whose own predicates accept
everything (a legitimate `semantic_string!` instantiation), `new`
accepts the two-byte UTF-8 sequence [0xC3, 0xA9] ("é"), and the checked
mutator `remove(0)` then succeeds — the content predicate is consulted,
the character predicate is not — leaving the lone continuation byte
[0xA9], which is not valid UTF-8. So identifiers built through checked
constructors and mutators need not contain only valid UTF-8. -/
theorem C9_counterexample :
    (newSem
      { capacity := 8, invalid_content := fun _ => false,
        invalid_characters := fun _ => false, normalize := id }
      [195, 169] = .ok [195, 169])
    ∧ (removeSem
      { capacity := 8, invalid_content := fun _ => false,
        invalid_characters := fun _ => false, normalize := id }
      [195, 169] 0 = (.ok 195, [169]))
    ∧ isValidUtf8 [169] = false :=
  ⟨by rfl, by rfl, by rfl⟩

/-- C9 (amended): for every family, `does_contain_invalid_characters`
returns true on any byte slice that is not valid UTF-8, regardless of
the family's own character predicate; consequently every identifier
built through the checked constructor `new` contains only valid UTF-8
bytes. (Checked mutators do not re-examine characters of the retained
bytes, so for families accepting multi-byte characters they can leave
non-UTF-8 contents; the unchecked `String` conversion is sound only for
identifiers whose family restricts characters accordingly or that were
produced by `new`.) -/
theorem C9_new_utf8 (F : Family) (s b : Bytes) :
    (isValidUtf8 s = false → hasInvalidChars F s = true)
    ∧ (∀ x, newSem F b = .ok x → isValidUtf8 x = true) := by
  constructor
  · intro h
    simp [hasInvalidChars, h]
  · intro x hok
    unfold newSem insert_bytes fbsInsertBytes at hok
    simp only [List.take_nil, List.drop_nil, List.nil_append, List.append_nil,
      List.length_nil, Nat.zero_add] at hok
    by_cases h1 : hasInvalidChars F b
    · simp [h1] at hok
    · by_cases h2 : F.capacity < b.length
      · simp [h1, h2] at hok
      · by_cases h3 : F.invalid_content b
        · simp [h1, h2, h3] at hok
        · simp [h1, h2, h3] at hok
          subst hok
          unfold hasInvalidChars at h1
          by_cases hu : isValidUtf8 b
          · exact hu
          · simp [hu] at h1

/-- C9 witness: the lone continuation byte is flagged as an invalid
character even by an accept-everything family predicate, and an
identifier freshly built by `new` from ASCII "hi" is valid UTF-8. -/
theorem C9_new_utf8_witness :
    (hasInvalidChars
      { capacity := 8, invalid_content := fun _ => false,
        invalid_characters := fun _ => false, normalize := id }
      [169] = true)
    ∧ isValidUtf8 [104, 105] = true :=
  ⟨(C9_new_utf8
      { capacity := 8, invalid_content := fun _ => false,
        invalid_characters := fun _ => false, normalize := id }
      [169] []).1 (by decide),
   (C9_new_utf8
      { capacity := 8, invalid_content := fun _ => false,
        invalid_characters := fun _ => false, normalize := id }
      [] [104, 105]).2 [104, 105] (by rfl)⟩

/-- C10: comparing an identifier against a raw byte slice returns
`false` (never an error — the result type is `Bool`) whenever the slice
fails the family's validation; when the slice validates into `y`, the
comparison equals normalized-form equality with `y` — so it can return
`true` for slices whose bytes differ from the identifier's own, as the
case-folding instance shows. -/
theorem C10_slice_eq (F : Family) (x b : Bytes) :
    (∀ e, newSem F b = .error e → eqSlice F x b = false)
    ∧ (∀ y, newSem F b = .ok y → eqSlice F x b = eqSem F x y)
    ∧ (eqSlice
        { capacity := 8, invalid_content := fun _ => false,
          invalid_characters := fun _ => false,
          normalize := fun l => l.map (fun c => if 65 ≤ c && c ≤ 90 then c + 32 else c) }
        [65] [97] = true
      ∧ ([65] : Bytes) ≠ [97]) := by
  refine ⟨?_, ?_, by decide, by decide⟩
  · intro e he
    simp [eqSlice, he]
  · intro y hy
    simp [eqSlice, hy]

/-- C10 witness: a slice exceeding the capacity compares as `false`
(not an error), and a validating slice compares by normalized
equality. -/
theorem C10_slice_eq_witness :
    (eqSlice
      { capacity := 1, invalid_content := fun _ => false,
        invalid_characters := fun _ => false, normalize := id }
      [1] [2, 3] = false)
    ∧ (eqSlice
      { capacity := 1, invalid_content := fun _ => false,
        invalid_characters := fun _ => false, normalize := id }
      [1] [2] =
     eqSem
      { capacity := 1, invalid_content := fun _ => false,
        invalid_characters := fun _ => false, normalize := id }
      [1] [2]) :=
  ⟨(C10_slice_eq
      { capacity := 1, invalid_content := fun _ => false,
        invalid_characters := fun _ => false, normalize := id }
      [1] [2, 3]).1 .ExceedsMaximumLength (by rfl),
   (C10_slice_eq
      { capacity := 1, invalid_content := fun _ => false,
        invalid_characters := fun _ => false, normalize := id }
      [1] [2]).2.1 [2] (by rfl)⟩

end Iceoryx2
